import Mathlib

/-!
Verification of the ddddocr-core decoding pipeline: the OCR greedy sequence
decoder with its charset restriction registry (src/OcrBase.js), and the
detection box decoding, non-maximum suppression and clipping steps
(src/DetectionBase.js).  The definitions are shallow embeddings of the
JavaScript sources; rational numbers stand in for JavaScript numbers, and
JavaScript character Sets are embedded as finite sets of characters.
-/

namespace DdddOcr

/-- Charset literal NUM_CASE from OcrBase.js: the decimal digits. -/
def NUM_CASE : String := "0123456789"

/-- Charset literal LOWWER_CASE from OcrBase.js: the lowercase letters. -/
def LOWWER_CASE : String := "abcdefghijklmnopqrstuvwxyz"

/-- Charset literal UPPER_CASE from OcrBase.js: the uppercase letters. -/
def UPPER_CASE : String := "ABCDEFGHIJKLMNOPQRSTUVWXYZ"

/-- Charset literal MIX_LOWWER_UPPER_CASE from OcrBase.js. -/
def MIX_LOWWER_UPPER_CASE : String := LOWWER_CASE ++ UPPER_CASE

/-- Charset literal MIX_LOWWER_NUM_CASE from OcrBase.js. -/
def MIX_LOWWER_NUM_CASE : String := LOWWER_CASE ++ NUM_CASE

/-- Charset literal MIX_UPPER_NUM_CASE from OcrBase.js. -/
def MIX_UPPER_NUM_CASE : String := UPPER_CASE ++ NUM_CASE

/-- Charset literal MIX_LOWER_UPPER_NUM_CASE from OcrBase.js. -/
def MIX_LOWER_UPPER_NUM_CASE : String := LOWWER_CASE ++ UPPER_CASE ++ NUM_CASE

/-- The character-set state of an OCRBase instance: the `_validCharSet` and
`_inValidCharSet` JavaScript Sets, embedded as finite sets of characters. -/
structure CharState where
  validCharSet : Finset Char
  inValidCharSet : Finset Char
deriving DecidableEq

/-- The argument of `setRanges`: a JavaScript number (modelled as an integer
code), a string, or a value of any other runtime type (such as a boolean). -/
inductive RangeSpec where
  | num (n : Int)
  | str (s : String)
  | other
deriving DecidableEq, Repr

/-- The error raised by `setRanges` on an unsupported charset range. -/
inductive OcrError where
  | unsupportedRange
deriving DecidableEq, Repr

deriving instance DecidableEq for Except

/-- A JavaScript `new Set(string)`: the finite set of the characters of the
string. -/
def stringToSet (s : String) : Finset Char := s.toList.toFinset

/-- `setValidCharSet` from OcrBase.js: replace the valid character set. -/
def setValidCharSet (st : CharState) (charset : String) : CharState :=
  { st with validCharSet := stringToSet charset }

/-- `setInValidCharset` from OcrBase.js: replace the invalid character set. -/
def setInValidCharset (st : CharState) (charset : String) : CharState :=
  { st with inValidCharSet := stringToSet charset }

/-- `setRanges` from OcrBase.js.  The returned pair is the state of the
instance after the call together with its outcome (`ok` for a normal return,
`error` when the JavaScript code throws before mutating the state). -/
def setRanges (st : CharState) (r : RangeSpec) : CharState × Except OcrError Unit :=
  match r with
  | .num n =>
      if n = 0 then (setValidCharSet st NUM_CASE, .ok ())
      else if n = 1 then (setValidCharSet st LOWWER_CASE, .ok ())
      else if n = 2 then (setValidCharSet st UPPER_CASE, .ok ())
      else if n = 3 then (setValidCharSet st MIX_LOWWER_UPPER_CASE, .ok ())
      else if n = 4 then (setValidCharSet st MIX_LOWWER_NUM_CASE, .ok ())
      else if n = 5 then (setValidCharSet st MIX_UPPER_NUM_CASE, .ok ())
      else if n = 6 then (setValidCharSet st MIX_LOWER_UPPER_NUM_CASE, .ok ())
      else if n = 7 then (setInValidCharset st MIX_LOWER_UPPER_NUM_CASE, .ok ())
      else (st, .error .unsupportedRange)
  | .str s => (setValidCharSet st s, .ok ())
  | .other => (st, .error .unsupportedRange)

/-- The state of a freshly constructed OCRBase instance: both character sets
are empty. -/
def freshCharState : CharState := ⟨∅, ∅⟩

/-- Resolving a charset range specification on a fresh instance. -/
def resolve (r : RangeSpec) : CharState × Except OcrError Unit :=
  setRanges freshCharState r

/-- `_isValidChar` from OcrBase.js: reject a character in the invalid set;
otherwise accept when the valid set is empty or contains the character. -/
def isValidChar (validSet inValidSet : Finset Char) (c : Char) : Bool :=
  if c ∈ inValidSet then false
  else if validSet.card = 0 then true
  else decide (c ∈ validSet)

/-- One iteration of the `_parseToChar` loop from OcrBase.js, over the
accumulator pair (emitted characters so far, `lastItem`). -/
def parseStep (validSet inValidSet : Finset Char) (charset : List Char)
    (acc : List Char × Nat) (a : Nat) : List Char × Nat :=
  if a = acc.2 then acc
  else
    if a ≠ 0 ∧ isValidChar validSet inValidSet (charset.getD a (Char.ofNat 0)) then
      (acc.1 ++ [charset.getD a (Char.ofNat 0)], a)
    else (acc.1, a)

/-- `_parseToChar` from OcrBase.js: greedy collapse of the argmax index
sequence into a string, with `lastItem` initialised to 0. -/
def parseToChar (validSet inValidSet : Finset Char) (argmaxData : List Nat)
    (charset : List Char) : String :=
  String.mk (argmaxData.foldl (parseStep validSet inValidSet charset) ([], 0)).1

/-- Character admissibility as the specification words it: rejected when in
the invalid set; otherwise accepted when the valid set is empty or contains
the character. -/
abbrev admissibleChar (validSet inValidSet : Finset Char) (c : Char) : Prop :=
  c ∉ inValidSet ∧ (validSet = ∅ ∨ c ∈ validSet)

/-- Reference greedy decoder written from the specification wording of claim
C4: scan left to right with `lastEmittedIndex`; skip a position equal to it;
otherwise update it and append the character exactly when the index is
non-zero and the character is admissible. -/
def specDecode (validSet inValidSet : Finset Char) (charset : List Char) :
    Nat → List Nat → List Char
  | _, [] => []
  | last, a :: rest =>
    if a = last then specDecode validSet inValidSet charset last rest
    else
      if a ≠ 0 ∧ admissibleChar validSet inValidSet (charset.getD a (Char.ofNat 0)) then
        charset.getD a (Char.ofNat 0) :: specDecode validSet inValidSet charset a rest
      else specDecode validSet inValidSet charset a rest

lemma isValidChar_iff_admissible (validSet inValidSet : Finset Char) (c : Char) :
    isValidChar validSet inValidSet c = true ↔ admissibleChar validSet inValidSet c := by
  unfold isValidChar admissibleChar
  by_cases hin : c ∈ inValidSet
  · simp [hin]
  · by_cases hcard : validSet.card = 0
    · simp [hin, hcard, Finset.card_eq_zero.mp hcard]
    · have : validSet ≠ ∅ := fun h => hcard (by simp [h])
      simp [hin, hcard, this]

lemma parseStep_eq (validSet inValidSet : Finset Char) (charset : List Char)
    (acc : List Char) (last a : Nat) :
    parseStep validSet inValidSet charset (acc, last) a =
      if a = last then (acc, last)
      else if a ≠ 0 ∧ admissibleChar validSet inValidSet (charset.getD a (Char.ofNat 0)) then
        (acc ++ [charset.getD a (Char.ofNat 0)], a)
      else (acc, a) := by
  show (if a = last then (acc, last)
        else if a ≠ 0 ∧ isValidChar validSet inValidSet (charset.getD a (Char.ofNat 0)) = true then
          (acc ++ [charset.getD a (Char.ofNat 0)], a)
        else (acc, a)) = _
  by_cases hskip : a = last
  · rw [if_pos hskip, if_pos hskip]
  · rw [if_neg hskip, if_neg hskip]
    by_cases hcond : a ≠ 0 ∧ admissibleChar validSet inValidSet (charset.getD a (Char.ofNat 0))
    · have hb : a ≠ 0 ∧ isValidChar validSet inValidSet (charset.getD a (Char.ofNat 0)) = true :=
        ⟨hcond.1, (isValidChar_iff_admissible _ _ _).mpr hcond.2⟩
      rw [if_pos hb, if_pos hcond]
    · have hb : ¬ (a ≠ 0 ∧ isValidChar validSet inValidSet (charset.getD a (Char.ofNat 0)) = true) :=
        fun h => hcond ⟨h.1, (isValidChar_iff_admissible _ _ _).mp h.2⟩
      rw [if_neg hb, if_neg hcond]

lemma parseToChar_foldl (validSet inValidSet : Finset Char) (charset : List Char) :
    ∀ (l : List Nat) (acc : List Char) (last : Nat),
      (l.foldl (parseStep validSet inValidSet charset) (acc, last)).1 =
        acc ++ specDecode validSet inValidSet charset last l := by
  intro l
  induction l with
  | nil => intro acc last; simp [specDecode]
  | cons a rest ih =>
      intro acc last
      rw [List.foldl_cons, parseStep_eq]
      by_cases hskip : a = last
      · rw [if_pos hskip]
        simp only [specDecode]
        rw [if_pos hskip]
        exact ih acc last
      · rw [if_neg hskip]
        simp only [specDecode]
        rw [if_neg hskip]
        by_cases hcond : a ≠ 0 ∧ admissibleChar validSet inValidSet (charset.getD a (Char.ofNat 0))
        · rw [if_pos hcond, if_pos hcond, ih, List.append_assoc]
          rfl
        · rw [if_neg hcond, if_neg hcond]
          exact ih acc a

/-- Claim C4: for every argmax index sequence and charset array, the decoded
string of `_parseToChar` equals the result of the reference left-to-right
scan with `lastEmittedIndex` initialised to 0, skipping repeats and appending
a character exactly when its index is non-zero and admissible. -/
theorem parseToChar_eq_specDecode (validSet inValidSet : Finset Char)
    (argmaxData : List Nat) (charset : List Char) :
    parseToChar validSet inValidSet argmaxData charset =
      String.mk (specDecode validSet inValidSet charset 0 argmaxData) := by
  unfold parseToChar
  rw [parseToChar_foldl]
  rfl

/-- Claim C2 counterexample: with charset index 3 mapped to the character c
and index 5 to the character e and no restriction, the sequence
[0,0,3,3,0,5,5,5,3] does not decode to the two-character string claimed by
the specification: the trailing index 3 emits a third character. -/
theorem greedy_collapse_example_cex :
    parseToChar ∅ ∅ [0, 0, 3, 3, 0, 5, 5, 5, 3] [' ', 'a', 'b', 'c', 'd', 'e'] ≠ "ce" := by
  decide

/-- Claim C2 (amended): the sequence [0,0,3,3,0,5,5,5,3], with a charset
mapping index 3 to the character c and index 5 to the character e and with
both restriction sets empty, decodes to exactly the three-character string
cec: the final index 3 differs from the last emitted index 5, so it emits a
second c. -/
theorem greedy_collapse_example_amended :
    parseToChar ∅ ∅ [0, 0, 3, 3, 0, 5, 5, 5, 3] [' ', 'a', 'b', 'c', 'd', 'e'] = "cec" := by
  decide

/-- Claim C6: numeric codes 0 through 6 resolve to the documented literal
valid character sets; code 7 yields an empty valid set and an invalid set of
all alphanumerics; a string input makes exactly its characters the valid
set. -/
theorem resolve_charset_codes :
    (resolve (.num 0)).1.validCharSet = stringToSet "0123456789" ∧
    (resolve (.num 1)).1.validCharSet = stringToSet "abcdefghijklmnopqrstuvwxyz" ∧
    (resolve (.num 2)).1.validCharSet = stringToSet "ABCDEFGHIJKLMNOPQRSTUVWXYZ" ∧
    (resolve (.num 3)).1.validCharSet =
      stringToSet "abcdefghijklmnopqrstuvwxyzABCDEFGHIJKLMNOPQRSTUVWXYZ" ∧
    (resolve (.num 4)).1.validCharSet = stringToSet "abcdefghijklmnopqrstuvwxyz0123456789" ∧
    (resolve (.num 5)).1.validCharSet = stringToSet "ABCDEFGHIJKLMNOPQRSTUVWXYZ0123456789" ∧
    (resolve (.num 6)).1.validCharSet =
      stringToSet "abcdefghijklmnopqrstuvwxyzABCDEFGHIJKLMNOPQRSTUVWXYZ0123456789" ∧
    (resolve (.num 7)).1.validCharSet = (∅ : Finset Char) ∧
    (resolve (.num 7)).1.inValidCharSet =
      stringToSet "abcdefghijklmnopqrstuvwxyzABCDEFGHIJKLMNOPQRSTUVWXYZ0123456789" ∧
    (∀ s : String, (resolve (.str s)).1.validCharSet = stringToSet s) := by
  refine ⟨by decide, by decide, by decide, by decide, by decide, by decide, by decide,
    by decide, by decide, fun s => rfl⟩

/-- Claim C8: `setRanges` called on a fresh instance with any numeric code
outside 0 through 7, or with an input that is neither a number nor a string,
fails with the unsupported-range error. -/
theorem resolve_unsupported :
    (∀ n : Int, (n < 0 ∨ 7 < n) → (resolve (.num n)).2 = .error .unsupportedRange) ∧
    (resolve .other).2 = .error .unsupportedRange := by
  constructor
  · intro n h
    have h0 : ¬ n = 0 := by omega
    have h1 : ¬ n = 1 := by omega
    have h2 : ¬ n = 2 := by omega
    have h3 : ¬ n = 3 := by omega
    have h4 : ¬ n = 4 := by omega
    have h5 : ¬ n = 5 := by omega
    have h6 : ¬ n = 6 := by omega
    have h7 : ¬ n = 7 := by omega
    simp [resolve, setRanges, h0, h1, h2, h3, h4, h5, h6, h7]
  · rfl

/-- Claim C8 witness: code 99 and a non-number non-string input both fail. -/
theorem resolve_unsupported_witness :
    ((99 : Int) < 0 ∨ 7 < (99 : Int)) ∧
    (resolve (.num 99)).2 = .error .unsupportedRange ∧
    (resolve .other).2 = .error .unsupportedRange :=
  ⟨by decide, resolve_unsupported.1 99 (by decide), resolve_unsupported.2⟩

/-- Claim C10: `setRanges` modifies at most one of the two character sets:
codes 0 through 6 and string inputs replace the valid set (to a value
independent of the prior state) and leave the invalid set unchanged; code 7
replaces the invalid set and leaves the valid set unchanged; a failing call
leaves both sets unchanged. -/
theorem setRanges_frame (st : CharState) :
    (∀ n : Int, 0 ≤ n → n ≤ 6 →
      (setRanges st (.num n)).1.inValidCharSet = st.inValidCharSet ∧
      (setRanges st (.num n)).1.validCharSet = (resolve (.num n)).1.validCharSet) ∧
    (∀ s : String,
      (setRanges st (.str s)).1.inValidCharSet = st.inValidCharSet ∧
      (setRanges st (.str s)).1.validCharSet = stringToSet s) ∧
    ((setRanges st (.num 7)).1.validCharSet = st.validCharSet ∧
      (setRanges st (.num 7)).1.inValidCharSet = stringToSet MIX_LOWER_UPPER_NUM_CASE) ∧
    (∀ r : RangeSpec, (setRanges st r).2 ≠ .ok () → (setRanges st r).1 = st) := by
  refine ⟨?_, fun s => ⟨rfl, rfl⟩, ⟨rfl, rfl⟩, ?_⟩
  · intro n hn0 hn6
    interval_cases n <;> exact ⟨rfl, rfl⟩
  · intro r h
    match r with
    | .str s => exact absurd rfl h
    | .other => rfl
    | .num n =>
      by_cases h0 : n = 0
      · subst h0; exact absurd rfl h
      by_cases h1 : n = 1
      · subst h1; exact absurd rfl h
      by_cases h2 : n = 2
      · subst h2; exact absurd rfl h
      by_cases h3 : n = 3
      · subst h3; exact absurd rfl h
      by_cases h4 : n = 4
      · subst h4; exact absurd rfl h
      by_cases h5 : n = 5
      · subst h5; exact absurd rfl h
      by_cases h6 : n = 6
      · subst h6; exact absurd rfl h
      by_cases h7 : n = 7
      · subst h7; exact absurd rfl h
      simp [setRanges, h0, h1, h2, h3, h4, h5, h6, h7]

/-- Claim C10 witness: on a state with valid set of the character z and
invalid set of the character q, code 2 leaves the invalid set unchanged and a
failing call with code 99 leaves the whole state unchanged. -/
theorem setRanges_frame_witness :
    ((0 : Int) ≤ 2 ∧ (2 : Int) ≤ 6) ∧
    (setRanges ⟨stringToSet "z", stringToSet "q"⟩ (.num 2)).1.inValidCharSet =
      (CharState.mk (stringToSet "z") (stringToSet "q")).inValidCharSet ∧
    (setRanges ⟨stringToSet "z", stringToSet "q"⟩ (.num 99)).2 ≠ .ok () ∧
    (setRanges ⟨stringToSet "z", stringToSet "q"⟩ (.num 99)).1 =
      ⟨stringToSet "z", stringToSet "q"⟩ :=
  ⟨⟨by decide, by decide⟩,
    ((setRanges_frame ⟨stringToSet "z", stringToSet "q"⟩).1 2 (by decide) (by decide)).1,
    by decide,
    (setRanges_frame ⟨stringToSet "z", stringToSet "q"⟩).2.2.2 (.num 99) (by decide)⟩

/-- Per-row detection score as `_postProcess` of DetectionBase.js computes it:
the product of column 4 (objectness) and column 5 (the first class column)
of the prediction row. -/
def scoresOf (predictions : List (List ℚ)) : List ℚ :=
  predictions.map (fun row => row.getD 4 0 * row.getD 5 0)

/-- The probability of the best (maximum-probability) class of a prediction
row, whose class columns start at column 5. -/
def bestClassProb (row : List ℚ) : ℚ :=
  match row.drop 5 with
  | [] => 0
  | c :: cs => cs.foldl max c

lemma bestClassProb_len6 (row : List ℚ) (h : row.length = 6) :
    bestClassProb row = row.getD 5 0 := by
  rcases row with _ | ⟨a, _ | ⟨b, _ | ⟨c, _ | ⟨d, _ | ⟨e, _ | ⟨f, rest⟩⟩⟩⟩⟩⟩ <;>
    simp_all [bestClassProb]

/-- Claim C1 counterexample: on a row with two class columns where the second
class has the larger probability, the score computed by the code is the
objectness times the first class probability, not the best one. -/
theorem score_not_best_class_cex :
    scoresOf [[0, 0, 0, 0, 1, 1/5, 9/10]] ≠
      ([[0, 0, 0, 0, 1, 1/5, 9/10]] : List (List ℚ)).map
        (fun row => row.getD 4 0 * bestClassProb row) := by
  norm_num [scoresOf, bestClassProb, max_def]

/-- Claim C1 (amended): when every output row has exactly one class column
(six attributes), the score assigned to each anchor equals the product of its
objectness and the probability of its best class, which is then the single
class column. -/
theorem score_single_class (predictions : List (List ℚ))
    (h : ∀ row ∈ predictions, row.length = 6) :
    scoresOf predictions =
      predictions.map (fun row => row.getD 4 0 * bestClassProb row) := by
  unfold scoresOf
  refine List.map_congr_left (fun row hrow => ?_)
  rw [bestClassProb_len6 row (h row hrow)]

/-- Claim C1 witness: a single-row output with one class column. -/
theorem score_single_class_witness :
    (∀ row ∈ ([[0, 0, 0, 0, 1, 1/2]] : List (List ℚ)), row.length = 6) ∧
    scoresOf [[0, 0, 0, 0, 1, 1/2]] =
      ([[0, 0, 0, 0, 1, 1/2]] : List (List ℚ)).map
        (fun row => row.getD 4 0 * bestClassProb row) :=
  ⟨by decide, score_single_class _ (by decide)⟩

/-- The corner-form coordinates computed inside `_calcBbox` of
DetectionBase.js before the division by the resize ratio. -/
def calcBboxPre (b : List ℚ) : List ℚ :=
  [b.getD 0 0 - b.getD 2 0 / 2, b.getD 1 0 - b.getD 3 0 / 2,
   b.getD 0 0 + b.getD 2 0 / 2, b.getD 1 0 + b.getD 3 0 / 2]

/-- `_calcBbox` from DetectionBase.js: decode center-form boxes to
corner-form, dividing each coordinate by the resize ratio. -/
def calcBbox (boxes : List (List ℚ)) (r : ℚ) : List (List ℚ) :=
  boxes.map (fun b =>
    [(b.getD 0 0 - b.getD 2 0 / 2) / r, (b.getD 1 0 - b.getD 3 0 / 2) / r,
     (b.getD 0 0 + b.getD 2 0 / 2) / r, (b.getD 1 0 + b.getD 3 0 / 2) / r])

/-- Claim C3 counterexample: for ratio one half, the box (100, 100, 40, 20)
yields neither (160, 180, 240, 220) before the division by the ratio nor
(320, 360, 480, 440) after it. -/
theorem calcBbox_ratio_example_cex :
    calcBboxPre [100, 100, 40, 20] ≠ [160, 180, 240, 220] ∧
    calcBbox [[100, 100, 40, 20]] (1/2) ≠ [[320, 360, 480, 440]] := by
  constructor <;> norm_num [calcBboxPre, calcBbox]

/-- Claim C3 (amended): for ratio one half, the center-form box
(100, 100, 40, 20) decodes to the corner-form box (80, 90, 120, 110) before
the division by the ratio and to (160, 180, 240, 220) after it, which is the
returned corner-form box; in general the returned box is the pre-division box
with every coordinate divided by the ratio. -/
theorem calcBbox_ratio_example_amended :
    calcBboxPre [100, 100, 40, 20] = [80, 90, 120, 110] ∧
    calcBbox [[100, 100, 40, 20]] (1/2) = [[160, 180, 240, 220]] ∧
    (∀ (boxes : List (List ℚ)) (r : ℚ),
      calcBbox boxes r = boxes.map (fun b => (calcBboxPre b).map (· / r))) := by
  refine ⟨by norm_num [calcBboxPre], by norm_num [calcBbox], fun boxes r => rfl⟩

/-- Truncation toward zero of a rational, as JavaScript parseInt behaves on a
finite number. -/
def truncQ (q : ℚ) : ℤ := if 0 ≤ q then ⌊q⌋ else ⌈q⌉

/-- `_parseToXyxy` from DetectionBase.js: clip each decoded box to the image,
replacing a negative x1 or y1 by 0, an x2 or y2 beyond the image size by the
size, and truncating the kept coordinates to integers. -/
def parseToXyxy (prediction : List (List ℚ)) (width height : ℤ) : List (List ℤ) :=
  prediction.map (fun b =>
    [if b.getD 0 0 < 0 then 0 else truncQ (b.getD 0 0),
     if b.getD 1 0 < 0 then 0 else truncQ (b.getD 1 0),
     if (width : ℚ) < b.getD 2 0 then width else truncQ (b.getD 2 0),
     if (height : ℚ) < b.getD 3 0 then height else truncQ (b.getD 3 0)])

lemma truncQ_max_zero (x : ℚ) :
    (if x < 0 then (0 : ℤ) else truncQ x) = truncQ (max 0 x) := by
  by_cases h : x < 0
  · rw [if_pos h, max_eq_left h.le]
    simp [truncQ]
  · rw [if_neg h, max_eq_right (not_lt.mp h)]

lemma truncQ_min_bound (w : ℤ) (hw : 0 ≤ w) (x : ℚ) :
    (if (w : ℚ) < x then w else truncQ x) = min w (truncQ x) := by
  by_cases h : (w : ℚ) < x
  · rw [if_pos h]
    have hx : (0 : ℚ) ≤ x := le_trans (by exact_mod_cast hw) h.le
    rw [truncQ, if_pos hx]
    exact (min_eq_left (Int.le_floor.mpr h.le)).symm
  · rw [if_neg h]
    push_neg at h
    by_cases hx : (0 : ℚ) ≤ x
    · rw [truncQ, if_pos hx]
      refine (min_eq_right ?_).symm
      calc ⌊x⌋ ≤ ⌊(w : ℚ)⌋ := Int.floor_le_floor h
        _ = w := Int.floor_intCast w
    · rw [truncQ, if_neg hx]
      refine (min_eq_right ?_).symm
      push_neg at hx
      calc ⌈x⌉ ≤ 0 := Int.ceil_le.mpr (by exact_mod_cast hx.le)
        _ ≤ w := hw

/-- Claim C7: for every list of decoded boxes and nonnegative image size, the
clipping step clamps x1 and y1 to at least 0 and x2 and y2 to at most the
width and height, truncating toward zero to integers; in particular the box
(-5, -5, 500, 500) against image size (416, 416) clips to (0, 0, 416, 416). -/
theorem parseToXyxy_clamps :
    (∀ (prediction : List (List ℚ)) (width height : ℤ), 0 ≤ width → 0 ≤ height →
      parseToXyxy prediction width height = prediction.map (fun b =>
        [truncQ (max 0 (b.getD 0 0)), truncQ (max 0 (b.getD 1 0)),
         min width (truncQ (b.getD 2 0)), min height (truncQ (b.getD 3 0))])) ∧
    parseToXyxy [[-5, -5, 500, 500]] 416 416 = [[0, 0, 416, 416]] := by
  constructor
  · intro prediction width height hw hh
    unfold parseToXyxy
    refine List.map_congr_left (fun b hb => ?_)
    rw [truncQ_max_zero, truncQ_max_zero, truncQ_min_bound width hw,
      truncQ_min_bound height hh]
  · norm_num [parseToXyxy, truncQ]

/-- Claim C7 witness: the specification example box against size 416. -/
theorem parseToXyxy_clamps_witness :
    (0 : ℤ) ≤ 416 ∧
    parseToXyxy [[-5, -5, 500, 500]] 416 416 =
      ([[-5, -5, 500, 500]] : List (List ℚ)).map (fun b =>
        [truncQ (max 0 (b.getD 0 0)), truncQ (max 0 (b.getD 1 0)),
         min 416 (truncQ (b.getD 2 0)), min 416 (truncQ (b.getD 3 0))]) :=
  ⟨by decide, parseToXyxy_clamps.1 [[-5, -5, 500, 500]] 416 416 (by decide) (by decide)⟩

/-- The inclusive-pixel area of a corner-form box, as `_nms` of
DetectionBase.js computes it. -/
def areaOf (b : List ℚ) : ℚ :=
  (b.getD 2 0 - b.getD 0 0 + 1) * (b.getD 3 0 - b.getD 1 0 + 1)

/-- The intersection area of two corner-form boxes with the inclusive-pixel
convention, as `_nms` of DetectionBase.js computes it. -/
def interOf (bi bj : List ℚ) : ℚ :=
  max 0 (min (bi.getD 2 0) (bj.getD 2 0) - max (bi.getD 0 0) (bj.getD 0 0) + 1) *
    max 0 (min (bi.getD 3 0) (bj.getD 3 0) - max (bi.getD 1 0) (bj.getD 1 0) + 1)

/-- Intersection over union of two corner-form boxes with the inclusive-pixel
area convention. -/
def iou (bi bj : List ℚ) : ℚ :=
  interOf bi bj / (areaOf bi + areaOf bj - interOf bi bj)

/-- Insertion of an index into a score-descending index list, placing it
before the first index of not-larger score. -/
def insertDesc (scores : List ℚ) (i : Nat) : List Nat → List Nat
  | [] => [i]
  | j :: rest =>
      if scores.getD j 0 ≤ scores.getD i 0 then i :: j :: rest
      else j :: insertDesc scores i rest

/-- Modelled from the spec: the `argSort` helper of utils/array-utils, which
is not among the sources, orders all indices by descending score, stably
(preserving original index order on equal scores). -/
def argSort (scores : List ℚ) : List Nat :=
  (List.range scores.length).foldr (insertDesc scores) []

/-- One suppression round of `_nms` from DetectionBase.js: the candidate
indices whose overlap ratio with the kept box is at most the threshold, in
order.  Faithful to the source, the union denominator uses `area0`, the area
of the box at position 0 of the caller's box list (`areas.slice(0, 1)`),
rather than the area of the kept box. -/
def survivorsOf (boxes : List (List ℚ)) (area0 nmsThr : ℚ) (bi : List ℚ) :
    List Nat → List Nat
  | [] => []
  | j :: rest =>
      if interOf bi (boxes.getD j []) /
          (area0 + areaOf (boxes.getD j []) - interOf bi (boxes.getD j [])) ≤ nmsThr then
        j :: survivorsOf boxes area0 nmsThr bi rest
      else survivorsOf boxes area0 nmsThr bi rest

/-- The while loop of `_nms` from DetectionBase.js, with a fuel argument (the
initial order length suffices, since every round consumes the head). -/
def nmsLoop (boxes : List (List ℚ)) (area0 nmsThr : ℚ) : Nat → List Nat → List Nat
  | 0, _ => []
  | _ + 1, [] => []
  | fuel + 1, i :: rest =>
      i :: nmsLoop boxes area0 nmsThr fuel
        (survivorsOf boxes area0 nmsThr (boxes.getD i []) rest)

/-- `_nms` from DetectionBase.js: greedy single-class non-maximum
suppression, returning the kept indices. -/
def nms (boxes : List (List ℚ)) (scores : List ℚ) (nmsThr : ℚ) : List Nat :=
  nmsLoop boxes (areaOf (boxes.getD 0 [])) nmsThr (argSort scores).length (argSort scores)

/-- One suppression round of the reference greedy NMS of the claim wording:
candidates are retained exactly when their IoU with the kept box is at most
the threshold. -/
def specSurvivorsOf (boxes : List (List ℚ)) (nmsThr : ℚ) (bi : List ℚ) :
    List Nat → List Nat
  | [] => []
  | j :: rest =>
      if iou bi (boxes.getD j []) ≤ nmsThr then
        j :: specSurvivorsOf boxes nmsThr bi rest
      else specSurvivorsOf boxes nmsThr bi rest

/-- The loop of the reference greedy NMS of the claim wording. -/
def nmsSpecLoop (boxes : List (List ℚ)) (nmsThr : ℚ) : Nat → List Nat → List Nat
  | 0, _ => []
  | _ + 1, [] => []
  | fuel + 1, i :: rest =>
      i :: nmsSpecLoop boxes nmsThr fuel
        (specSurvivorsOf boxes nmsThr (boxes.getD i []) rest)

/-- Reference single-class greedy NMS written from the claim wording: order
indices by descending score (stable), repeatedly keep the highest remaining
index and retain only candidates whose IoU with the kept box is at most the
threshold. -/
def nmsSpec (boxes : List (List ℚ)) (scores : List ℚ) (nmsThr : ℚ) : List Nat :=
  nmsSpecLoop boxes nmsThr (argSort scores).length (argSort scores)

/-- `_multiclassNmsClassAgnostic` from DetectionBase.js: filter the boxes by
score threshold, run single-class NMS on the survivors and return the kept
boxes. -/
def multiclassNmsClassAgnostic (boxes : List (List ℚ)) (scores : List ℚ)
    (nmsThr scoreThr : ℚ) : List (List ℚ) :=
  let valid := (scores.zip boxes).filter (fun p => decide (scoreThr < p.1))
  let validBoxes := valid.map Prod.snd
  (nms validBoxes (valid.map Prod.fst) nmsThr).map (fun i => validBoxes.getD i [])

/-- Claim C5: the code's NMS diverges from the reference greedy algorithm.
With a large first-listed box of score one half and two identical boxes of
scores nine tenths and four fifths, at threshold nine twentieths, the code
keeps indices 1, 2 and 0 — both identical boxes survive, because the union
denominator mistakenly uses the area of the first-listed box (`areas.slice(0,
1)`) instead of the kept box's area — while the reference algorithm keeps
only 1 and 0.  On the two-box instance of the claim the two computations
agree and only the higher-scoring box is kept. -/
theorem nms_wrong_area_eval :
    nms [[0, 0, 999, 999], [0, 0, 9, 9], [0, 0, 9, 9]] [1/2, 9/10, 4/5] (9/20) = [1, 2, 0] ∧
    nmsSpec [[0, 0, 999, 999], [0, 0, 9, 9], [0, 0, 9, 9]] [1/2, 9/10, 4/5] (9/20) = [1, 0] ∧
    nms [[0, 0, 9, 9], [0, 0, 9, 9]] [9/10, 4/5] (9/20) = [0] ∧
    nmsSpec [[0, 0, 9, 9], [0, 0, 9, 9]] [9/10, 4/5] (9/20) = [0] := by
  refine ⟨?_, ?_, ?_, ?_⟩ <;>
    norm_num [nms, nmsSpec, nmsLoop, nmsSpecLoop, survivorsOf, specSurvivorsOf, argSort,
      insertDesc, iou, interOf, areaOf, max_def, min_def,
      List.range_succ, List.foldr_append, List.foldr_cons, List.foldr_nil]

/-- The box list of the idempotence counterexample: a huge box listed first
with the lowest score, a tiny far-away box with the top score, and two boxes
of area 100 whose IoU with each other is three sevenths. -/
def idemBoxes : List (List ℚ) :=
  [[2000, 2000, 2999, 2999], [100, 100, 100, 100], [0, 0, 9, 9], [0, 4, 9, 13]]

/-- The scores of the idempotence counterexample, all above the score
threshold one tenth. -/
def idemScores : List ℚ := [1/5, 19/20, 9/10, 4/5]

/-- Claim C9: NMS is not idempotent on its own output.  All scores of
`idemBoxes` exceed the threshold one tenth, the first run keeps all four
boxes, and no two kept boxes overlap above the IoU threshold nine twentieths;
yet the second run on the kept boxes (with their own scores) drops the box
(0, 4, 9, 13): its overlap ratio with (0, 0, 9, 9) is now computed with the
area of the top-scoring tiny first-listed box in the denominator
(`areas.slice(0, 1)`), which inflates it past the threshold. -/
theorem nms_not_idempotent_eval :
    idemScores.all (fun s => decide ((1/10 : ℚ) < s)) = true ∧
    multiclassNmsClassAgnostic idemBoxes idemScores (9/20) (1/10) =
      [[100, 100, 100, 100], [0, 0, 9, 9], [0, 4, 9, 13], [2000, 2000, 2999, 2999]] ∧
    (nms idemBoxes idemScores (9/20)).map (fun i => idemScores.getD i 0) =
      [19/20, 9/10, 4/5, 1/5] ∧
    List.Pairwise (fun b1 b2 => iou b1 b2 ≤ (9/20 : ℚ))
      [[100, 100, 100, 100], [0, 0, 9, 9], [0, 4, 9, 13], [2000, 2000, 2999, 2999]] ∧
    multiclassNmsClassAgnostic
      [[100, 100, 100, 100], [0, 0, 9, 9], [0, 4, 9, 13], [2000, 2000, 2999, 2999]]
      [19/20, 9/10, 4/5, 1/5] (9/20) (1/10) ≠
      [[100, 100, 100, 100], [0, 0, 9, 9], [0, 4, 9, 13], [2000, 2000, 2999, 2999]] := by
  refine ⟨?_, ?_, ?_, ?_, ?_⟩ <;>
    norm_num [multiclassNmsClassAgnostic, idemBoxes, idemScores, nms, nmsLoop, survivorsOf,
      argSort, insertDesc, iou, interOf, areaOf, max_def, min_def, List.pairwise_cons,
      List.range_succ, List.foldr_append, List.foldr_cons, List.foldr_nil]

end DdddOcr
